import Mathlib

/-!
# Verification of the NDK `checkbuild.py` build orchestrator

Shallow embedding of the orchestrator in `checkbuild.py`, of the
per-job wrapper `launch_build`, of the helper `common_build_args`,
of the `no_platform_gaps` build test, and of the `WorkQueue`
work-dispatch core (whose source is not in this snapshot; it is
modelled from the specification).

Python strings become Lean `String`, Python tuples become products or
structures, fallible build callables become `Except`-valued functions,
and the side effects of the driver loop (printing, terminating the
queue, appending to the error log) become an explicit event trace.
-/

/-- The subset of parsed command-line arguments the embedded functions
consult (`args.system`, `args.arch`). -/
structure Args where
  system : String
  arch : Option String
deriving Repr, DecidableEq

/-- A completed job's record as produced by `launch_build`:
`(build_name, success flag, log_path)`. -/
structure Result where
  name : String
  success : Bool
  log_path : String
deriving Repr, DecidableEq

/-- Whether a path string begins with the POSIX separator `/`. -/
def startsWithSlash (s : String) : Bool :=
  match s.data with
  | [] => false
  | c :: _ => c == '/'

/-- Whether a path string ends with the POSIX separator `/`. -/
def endsWithSlash (s : String) : Bool :=
  match s.data.getLast? with
  | none => false
  | some c => c == '/'

/-- `os.path.join(a, b)` for exactly two POSIX path components, as used by
`checkbuild.py`: an absolute `b` replaces `a`; otherwise the parts are
joined, inserting `/` unless `a` is empty or already ends with `/`. -/
def os_path_join (a b : String) : String :=
  if startsWithSlash b then b
  else if a = "" then b
  else if endsWithSlash a then a ++ b
  else a ++ "/" ++ b

/-- `common_build_args` from `checkbuild.py`.  The source first binds
`build_args = ['--out-dir={}'.format(out_dir)]` and then immediately
rebinds `build_args = ['--dist-dir={}'.format(dist_dir)]`, discarding the
first list; the shadowing `let` reproduces that. -/
def common_build_args (out_dir dist_dir : String) (args : Args) : List String :=
  let build_args := ["--out-dir=" ++ out_dir]
  let build_args := ["--dist-dir=" ++ dist_dir]
  build_args ++ ["--host=" ++ args.system]

/-- A module build callable `(out_dir, dist_dir, args)`: returns `ok` on
success, or `error tb` where `tb` is the rendered traceback text that
`traceback.print_exc()` would write when the callable raises. -/
def BuildFunc : Type := String → String → Args → Except String Unit

/-- `launch_build` from `checkbuild.py`: computes the per-job log path
`os.path.join(log_dir, build_name) + '.log'`, runs the callable with
stdout/stderr teed to that log, and catches any exception, turning it via
`traceback.print_exc()` into a failed result instead of raising.  The
first component is the returned tuple `(build_name, success, log_path)`;
the second collects what the wrapper itself wrote to the log (the
rendered traceback on failure, nothing on success). -/
def launch_build (build_name : String) (build_func : BuildFunc)
    (out_dir dist_dir : String) (args : Args) (log_dir : String) :
    (String × Bool × String) × List String :=
  let log_path := os_path_join log_dir build_name ++ ".log"
  match build_func out_dir dist_dir args with
  | Except.ok _ => ((build_name, true, log_path), [])
  | Except.error tb => ((build_name, false, log_path), [tb])

/-- The `ALL_MODULES` set literal from `checkbuild.py`, as a list in the
order it is written in the source. -/
def ALL_MODULES : List String :=
  ["clang", "cpufeatures", "gabi++", "gcc", "gdbserver", "gnustl", "gtest",
   "host-tools", "libandroid_support", "libc++", "libc++abi", "libshaderc",
   "native_app_glue", "ndk-build", "ndk_helper", "platforms",
   "python-packages", "shader_tools", "simpleperf", "stlport", "sysroot",
   "system-stl", "vulkan"]

/-- The keys of the `module_builds` `OrderedDict` in `main`, in its fixed
insertion order. -/
def module_builds : List String :=
  ["clang", "cpufeatures", "gabi++", "gcc", "gdbserver", "gnustl", "gtest",
   "host-tools", "libandroid_support", "libc++", "libc++abi", "libshaderc",
   "native_app_glue", "ndk-build", "ndk_helper", "platforms",
   "python-packages", "shader_tools", "simpleperf", "stlport", "sysroot",
   "system-stl", "vulkan"]

/-- The submission loop of `main`: walk `module_builds` in table order and
submit one job for each name that is in the selected `modules` set. -/
def submitted_jobs (modules : List String) : List String :=
  module_builds.filter (fun n => modules.contains n)

example : submitted_jobs ["gcc", "clang"] = ["clang", "gcc"] := by decide

example : submitted_jobs ALL_MODULES = module_builds := by decide

/-- Observable actions of the build phase of `main`: a per-result status
line, `workqueue.terminate()`, `workqueue.join()`, printing a failed job's
log back, and appending it to the aggregated error log. -/
inductive Ev where
  | success (name : String)
  | terminate
  | join
  | failed (name : String)
  | printLog (contents : String)
  | appendErrorLog (path : String) (contents : String)
deriving Repr, DecidableEq

/-- How the `try` block of the build phase of `main` ends: the loop saw
`finished()`, or `sys.exit(1)` was raised after a failed result, or an
external interruption (an exception such as `KeyboardInterrupt`) struck. -/
inductive Outcome where
  | completed
  | buildFailed
  | interrupted
deriving Repr, DecidableEq

/-- The `while not workqueue.finished(): ... get_result() ...` loop of
`main` (the `try` block body).  `arriving` is the sequence of results in
the order `get_result()` yields them; `readLog p` is the content read back
from log file `p`.  `interrupt = some k` models an external exception
striking at the loop head after `k` results were consumed; `none` means no
interruption.  A successful result prints its status line and continues; a
failed result terminates and joins the queue, prints the failure and the
captured log, appends a newline plus that log to
`os.path.join(dist_dir, 'logs/build_error.log')`, and raises
`SystemExit(1)`, consuming none of the remaining results. -/
def tryBody (readLog : String → String) (dist_dir : String) :
    List Result → Option Nat → List Ev × Outcome
  | _, some 0 => ([], Outcome.interrupted)
  | [], _ => ([], Outcome.completed)
  | r :: rest, i =>
    if r.success then
      let next := tryBody readLog dist_dir rest (i.map (· - 1))
      (Ev.success r.name :: next.1, next.2)
    else
      ([Ev.terminate, Ev.join, Ev.failed r.name,
        Ev.printLog (readLog r.log_path),
        Ev.appendErrorLog (os_path_join dist_dir "logs/build_error.log")
          ("\n" ++ readLog r.log_path)], Outcome.buildFailed)

/-- The whole build phase of `main`: the `try` block above wrapped in
`finally: workqueue.terminate(); workqueue.join()`.  Python runs the
`finally` suite on every exit from the `try` block — normal fall-through,
the `SystemExit` raised by `sys.exit(1)`, and any external exception — and
then lets the exception continue, so the two `finally` events are appended
to every trace and the outcome is preserved. -/
def buildPhase (readLog : String → String) (dist_dir : String)
    (arriving : List Result) (interrupt : Option Nat) : List Ev × Outcome :=
  let body := tryBody readLog dist_dir arriving interrupt
  (body.1 ++ [Ev.terminate, Ev.join], body.2)

/-- The process exit code of `main` when no external interruption occurs.
A failed build exits via `sys.exit(1)`.  Otherwise packaging runs when
`do_package` is set; an exception escaping it (`package_ok = false`) is
unhandled, which makes the interpreter exit with code 1.  Then testing
runs when `test_run` is set and updates `good`, and `main` ends with
`sys.exit(not good)` — exit code 1 when `good` is false, 0 otherwise. -/
def mainExitCode (readLog : String → String) (dist_dir : String)
    (arriving : List Result)
    (do_package package_ok test_run test_ok : Bool) : Nat :=
  match (buildPhase readLog dist_dir arriving none).2 with
  | Outcome.buildFailed => 1
  | _ =>
    if do_package && !package_ok then 1
    else
      let good := if test_run then test_ok else true
      if good then 0 else 1

/-- One entry of `lib_dir.iterdir()` in the `no_platform_gaps` test: the
entry's final path component and whether it is a directory. -/
structure DirEntry where
  name : String
  is_dir : Bool
deriving Repr, DecidableEq

/-- Decimal digits of a candidate `int()` literal, most significant
first, folded into a value; any non-digit character rejects the whole
string, as Python's `int()` does. -/
def parseNatGo : List Char → Nat → Option Nat
  | [], acc => some acc
  | c :: rest, acc =>
    if c.isDigit then parseNatGo rest (acc * 10 + (c.toNat - 48)) else none

/-- A non-empty all-digit character list parsed as a natural number. -/
def parseNatChars : List Char → Option Nat
  | [] => none
  | cs => parseNatGo cs 0

/-- Python's `int(s)` on the strings that occur as directory names: an
optional sign followed by at least one decimal digit; everything else
raises `ValueError`, modelled as `none`. -/
def pyInt? (s : String) : Option Int :=
  match s.data with
  | '-' :: rest => (parseNatChars rest).map (fun n => -(Int.ofNat n))
  | '+' :: rest => (parseNatChars rest).map (fun n => Int.ofNat n)
  | cs => (parseNatChars cs).map (fun n => Int.ofNat n)

/-- One iteration of the scanning loop of `run_test` in
`tests/build/no_platform_gaps/test.py`: skip a non-directory entry, skip
a name `int()` rejects, and otherwise append the level to `apis` and
update `min_api`/`max_api` exactly as the source's
`if min_api is None or api < min_api` updates do. -/
def scanStep (acc : List Int × Option Int × Option Int) (e : DirEntry) :
    List Int × Option Int × Option Int :=
  if !e.is_dir then acc
  else
    match pyInt? e.name with
    | none => acc
    | some api =>
      let min_api :=
        match acc.2.1 with
        | none => some api
        | some m => if api < m then some api else some m
      let max_api :=
        match acc.2.2 with
        | none => some api
        | some m => if api > m then some api else some m
      (acc.1 ++ [api], min_api, max_api)

/-- The whole scanning loop of `run_test`, started from
`apis = []`, `min_api = None`, `max_api = None`.
Returns `(apis, min_api, max_api)`. -/
def scanApis (entries : List DirEntry) : List Int × Option Int × Option Int :=
  entries.foldl scanStep ([], none, none)

/-- Python's `range(lo, hi)` over integers: `lo, lo+1, ..., hi-1`. -/
def pyRange (lo hi : Int) : List Int :=
  (List.range (hi - lo).toNat).map (fun i => lo + Int.ofNat i)

/-- `sorted(list(set(range(min_api, max_api)) - set(apis)))` from
`run_test`.  `range(lo, hi)` is already strictly increasing and
duplicate-free, so removing the members of `apis` by an order-preserving
filter yields exactly the sorted set difference. -/
def missing_platforms (apis : List Int) (lo hi : Int) : List Int :=
  (pyRange lo hi).filter (fun k => !apis.contains k)

/-- The build loop at the end of `run_test`: build each missing API level
in order, returning the first failing build's `(result, out)` without
building any later level, or `(True, '')` after all succeed.  The second
component records which API levels were actually built. -/
def buildLoop (build : Int → Bool × String) : List Int → (Bool × String) × List Int
  | [] => ((true, ""), [])
  | api :: rest =>
    let r := build api
    if r.1 then
      let next := buildLoop build rest
      (next.1, api :: next.2)
    else (r, [api])

/-- `run_test` from `tests/build/no_platform_gaps/test.py`, given the
directory listing of `lib_dir` and the `build` callable.  When the scan
finds no numeric directory at all, `min_api`/`max_api` stay `None` and
`range(None, None)` raises `TypeError`; that crash is `none`. -/
def run_test (entries : List DirEntry) (build : Int → Bool × String) :
    Option ((Bool × String) × List Int) :=
  let scan := scanApis entries
  match scan.2.1, scan.2.2 with
  | some lo, some hi => some (buildLoop build (missing_platforms scan.1 lo hi))
  | _, _ => none

/-- Modelled from the spec: `checkbuild.py` imports `ndk.workqueue`, but
the `WorkQueue` implementation is not part of this source snapshot, so its
state is modelled from the specification's data model — an intake queue of
unclaimed jobs, the multiset of jobs currently claimed by workers, the
shared result queue, the results already consumed via `get_result()`, and
the termination flag. -/
structure WQState (α : Type) where
  pending : List α
  inFlight : List α
  resultQ : List Result
  collected : List Result
  terminated : Bool
deriving Repr, DecidableEq

/-- Modelled from the spec: the atomic transitions of the work-dispatch
core.  `claim` is a worker taking the next unclaimed job from the intake
queue; `finish j` is the worker holding `j` completing it and pushing its
result; `collect` is the orchestrator's `get_result()`; `terminate` is
`WorkQueue.terminate()`, which stops claiming and discards unclaimed
jobs. -/
inductive WQStep (α : Type) where
  | claim
  | finish (j : α)
  | collect
  | terminate
deriving Repr, DecidableEq

/-- Modelled from the spec: the effect of one transition on the pool
state.  `exec` runs a job to its `Result` (in `checkbuild.py` every job is
`launch_build`, which never raises).  Transitions whose precondition does
not hold (claiming from an empty or terminated intake, finishing a job no
worker holds, collecting from an empty result queue) leave the state
unchanged. -/
def wqStep {α : Type} [DecidableEq α] (exec : α → Result)
    (s : WQState α) : WQStep α → WQState α
  | WQStep.claim =>
    if s.terminated then s
    else
      match s.pending with
      | [] => s
      | j :: rest => { s with pending := rest, inFlight := s.inFlight ++ [j] }
  | WQStep.finish j =>
    if j ∈ s.inFlight then
      { s with inFlight := s.inFlight.erase j,
               resultQ := s.resultQ ++ [exec j] }
    else s
  | WQStep.collect =>
    match s.resultQ with
    | [] => s
    | r :: rest => { s with resultQ := rest, collected := s.collected ++ [r] }
  | WQStep.terminate => { s with terminated := true, pending := [] }

/-- Modelled from the spec: run the pool under a given interleaving of
transitions. -/
def wqRun {α : Type} [DecidableEq α] (exec : α → Result)
    (s : WQState α) : List (WQStep α) → WQState α
  | [] => s
  | step :: rest => wqRun exec (wqStep exec s step) rest

/-- Modelled from the spec: the pool state right after `construct` plus
`add_task` for each job, before any worker claims. -/
def wqInit {α : Type} (jobs : List α) : WQState α :=
  ⟨jobs, [], [], [], false⟩

/-- Modelled from the spec: `finished()` — every submitted job is
completed (nothing unclaimed, nothing in flight) and the result queue has
been drained. -/
def wqFinished {α : Type} (s : WQState α) : Bool :=
  s.pending.isEmpty && s.inFlight.isEmpty && s.resultQ.isEmpty

/-- A sequential schedule that drives every job to completion: claim it,
finish it, collect its result, then move on. -/
def seqSchedule {α : Type} : List α → List (WQStep α)
  | [] => []
  | j :: rest => WQStep.claim :: WQStep.finish j :: WQStep.collect :: seqSchedule rest

/-! ## Helper lemmas -/

/-- Appending distinct literal flag heads yields distinct strings. -/
theorem out_dir_flag_ne_dist_dir_flag (x d : String) :
    ("--out-dir=" ++ x) ≠ ("--dist-dir=" ++ d) := by
  intro h
  have h2 := congrArg String.data h
  simp [String.data_append] at h2

/-- An `--out-dir=` flag is never a `--host=` flag. -/
theorem out_dir_flag_ne_host_flag (x d : String) :
    ("--out-dir=" ++ x) ≠ ("--host=" ++ d) := by
  intro h
  have h2 := congrArg String.data h
  simp [String.data_append] at h2

/-- Cancelling a common leading path and trailing `.log` in an equality of
log paths. -/
theorem append_log_cancel (p n1 n2 : String)
    (h : p ++ n1 ++ ".log" = p ++ n2 ++ ".log") : n1 = n2 := by
  have h2 := congrArg String.data h
  simp [String.data_append] at h2
  exact String.ext h2

/-- Cancelling the trailing `.log` alone. -/
theorem append_log_cancel_bare (n1 n2 : String)
    (h : n1 ++ ".log" = n2 ++ ".log") : n1 = n2 := by
  have h2 := congrArg String.data h
  simp [String.data_append] at h2
  exact String.ext h2

/-- For relative path components, `os.path.join(log_dir, n) + '.log'`
determines `n`: the joined prefix depends only on `log_dir`. -/
theorem os_path_join_log_inj (log_dir n1 n2 : String)
    (h1 : startsWithSlash n1 = false) (h2 : startsWithSlash n2 = false)
    (heq : os_path_join log_dir n1 ++ ".log" = os_path_join log_dir n2 ++ ".log") :
    n1 = n2 := by
  unfold os_path_join at heq
  rw [h1, h2] at heq
  simp only [Bool.false_eq_true, if_false] at heq
  by_cases hld : log_dir = ""
  · rw [if_pos hld, if_pos hld] at heq
    exact append_log_cancel_bare _ _ heq
  · rw [if_neg hld, if_neg hld] at heq
    by_cases hsl : endsWithSlash log_dir = true
    · rw [if_pos hsl, if_pos hsl] at heq
      exact append_log_cancel log_dir _ _ heq
    · rw [if_neg hsl, if_neg hsl] at heq
      exact append_log_cancel (log_dir ++ "/") _ _ (by
        simpa [String.append_assoc] using heq)

/-- No module name in the build table is an absolute path. -/
theorem module_names_relative : ∀ n ∈ module_builds, startsWithSlash n = false := by
  decide

/-- The module table has no duplicate names. -/
theorem module_builds_nodup : module_builds.Nodup := by decide

/-! ## Claims -/

/-- C9: `common_build_args` returns exactly the `--dist-dir` and `--host`
flags; the `--out-dir` flag built first is discarded by the rebinding of
`build_args`, so no `--out-dir` flag is in the result and the `out_dir`
argument has no effect on it. -/
theorem common_build_args_drops_out_dir (out1 out2 dist : String) (a : Args) :
    common_build_args out1 dist a = ["--dist-dir=" ++ dist, "--host=" ++ a.system] ∧
    common_build_args out1 dist a = common_build_args out2 dist a ∧
    ∀ x, ("--out-dir=" ++ x) ∉ common_build_args out1 dist a := by
  refine ⟨rfl, rfl, ?_⟩
  intro x hx
  simp only [common_build_args, List.mem_append, List.mem_singleton,
    List.mem_cons, List.not_mem_nil, or_false] at hx
  rcases hx with h | h
  · exact out_dir_flag_ne_dist_dir_flag x dist h
  · exact out_dir_flag_ne_host_flag x a.system h

/-- Witness for C9 at a concrete input. -/
theorem common_build_args_drops_out_dir_witness :
    ("--out-dir=" ++ "/tmp/out") ∉ common_build_args "/tmp/out" "/tmp/dist" ⟨"linux", none⟩ :=
  (common_build_args_drops_out_dir "/tmp/out" "/other" "/tmp/dist" ⟨"linux", none⟩).2.2 "/tmp/out"

/-- C2: `launch_build` catches every error its callable raises: on
`error e` it returns the failed result `(build_name, False, log_path)`
with the rendered trace `e` written to the log, on `ok` it returns the
successful result, and in all cases it returns a tuple carrying the job's
name and per-job log path — it never itself raises. -/
theorem launch_build_catches (build_name : String) (f : BuildFunc)
    (o d : String) (a : Args) (ld : String) :
    (∀ e, f o d a = Except.error e →
       launch_build build_name f o d a ld =
         ((build_name, false, os_path_join ld build_name ++ ".log"), [e])) ∧
    (∀ u, f o d a = Except.ok u →
       launch_build build_name f o d a ld =
         ((build_name, true, os_path_join ld build_name ++ ".log"), [])) ∧
    ((launch_build build_name f o d a ld).1.1 = build_name ∧
     (launch_build build_name f o d a ld).1.2.2 = os_path_join ld build_name ++ ".log") ∧
    ((launch_build build_name f o d a ld).1.2.1 = false ↔
       ∃ e, f o d a = Except.error e) := by
  cases h : f o d a with
  | ok u => simp [launch_build, h]
  | error e => simp [launch_build, h]

/-- Witness for C2: a callable that raises yields a failed result with
its trace, not a crash. -/
theorem launch_build_catches_witness :
    launch_build "clang" (fun _ _ _ => Except.error "Traceback: boom")
        "out" "dist" ⟨"linux", none⟩ "logs" =
      (("clang", false, os_path_join "logs" "clang" ++ ".log"), ["Traceback: boom"]) :=
  (launch_build_catches "clang" (fun _ _ _ => Except.error "Traceback: boom")
    "out" "dist" ⟨"linux", none⟩ "logs").1 "Traceback: boom" rfl

/-- C8: `launch_build` tees each job's output to
`os.path.join(log_dir, build_name) + '.log'` — a path named after the job
alone — and two distinct jobs of the module table never share a log
file. -/
theorem per_job_log_paths (log_dir : String) :
    (∀ build_name f o d a,
       (launch_build build_name f o d a log_dir).1.2.2 =
         os_path_join log_dir build_name ++ ".log") ∧
    (∀ n1 n2, n1 ∈ module_builds → n2 ∈ module_builds → n1 ≠ n2 →
       ∀ f1 f2 o1 d1 a1 o2 d2 a2,
         (launch_build n1 f1 o1 d1 a1 log_dir).1.2.2 ≠
           (launch_build n2 f2 o2 d2 a2 log_dir).1.2.2) := by
  have hpath : ∀ build_name (f : BuildFunc) o d a,
      (launch_build build_name f o d a log_dir).1.2.2 =
        os_path_join log_dir build_name ++ ".log" := by
    intro build_name f o d a
    cases h : f o d a <;> simp [launch_build, h]
  refine ⟨hpath, ?_⟩
  intro n1 n2 hm1 hm2 hne f1 f2 o1 d1 a1 o2 d2 a2 heq
  rw [hpath, hpath] at heq
  exact hne (os_path_join_log_inj log_dir n1 n2
    (module_names_relative n1 hm1) (module_names_relative n2 hm2) heq)

/-- Witness for C8: the `clang` and `gcc` jobs write to different log
files. -/
theorem per_job_log_paths_witness :
    (launch_build "clang" (fun _ _ _ => Except.ok ()) "o" "d" ⟨"linux", none⟩ "logs").1.2.2 ≠
      (launch_build "gcc" (fun _ _ _ => Except.ok ()) "o" "d" ⟨"linux", none⟩ "logs").1.2.2 :=
  (per_job_log_paths "logs").2 "clang" "gcc" (by decide) (by decide) (by decide)
    (fun _ _ _ => Except.ok ()) (fun _ _ _ => Except.ok ()) "o" "d" ⟨"linux", none⟩
    "o" "d" ⟨"linux", none⟩

/-- C7: the submission loop submits exactly one job per selected module,
in the fixed order of the module table, and the submitted list is
determined by the selected set alone (two runs with the same selection
submit the same modules in the same order). -/
theorem submission_deterministic (sel : List String)
    (hsel : ∀ m ∈ sel, m ∈ ALL_MODULES) :
    (submitted_jobs sel).Sublist module_builds ∧
    (submitted_jobs sel).Nodup ∧
    (∀ n, n ∈ submitted_jobs sel ↔ n ∈ sel) ∧
    (∀ n ∈ sel, (submitted_jobs sel).count n = 1) ∧
    ∀ sel2, (∀ n, n ∈ sel2 ↔ n ∈ sel) → submitted_jobs sel2 = submitted_jobs sel := by
  have htab : ALL_MODULES = module_builds := rfl
  have hc : ∀ (l : List String) (a : String), l.contains a = true ↔ a ∈ l :=
    fun l a => List.elem_iff
  have hmem : ∀ n, n ∈ submitted_jobs sel ↔ n ∈ sel := by
    intro n
    rw [submitted_jobs, List.mem_filter]
    constructor
    · exact fun h => (hc sel n).1 h.2
    · intro h
      exact ⟨htab ▸ hsel n h, (hc sel n).2 h⟩
  refine ⟨List.filter_sublist _, module_builds_nodup.filter _, hmem, ?_, ?_⟩
  · intro n hn
    have hp : (fun m => sel.contains m) n = true := (hc sel n).2 hn
    rw [submitted_jobs, List.count_filter hp]
    exact List.count_eq_one_of_mem module_builds_nodup (htab ▸ hsel n hn)
  · intro sel2 hiff
    apply List.filter_congr
    intro m _
    have h2 := hc sel2 m
    have h3 := hc sel m
    have h4 := hiff m
    cases hone : sel2.contains m <;> cases htwo : sel.contains m <;> simp_all

/-- Witness for C7: selecting `gcc` and `clang` submits each exactly
once, in table order. -/
theorem submission_deterministic_witness :
    (submitted_jobs ["gcc", "clang"]).count "gcc" = 1 :=
  (submission_deterministic ["gcc", "clang"] (by decide)).2.2.2.1 "gcc" (by decide)

/-- The five events the driver loop emits on a failed result, in source
order: terminate the queue, join it, print the failure line, print the
captured log, append it to the aggregated error log. -/
def failEvs (readLog : String → String) (dist_dir : String) (f : Result) : List Ev :=
  [Ev.terminate, Ev.join, Ev.failed f.name, Ev.printLog (readLog f.log_path),
   Ev.appendErrorLog (os_path_join dist_dir "logs/build_error.log")
     ("\n" ++ readLog f.log_path)]

/-- An interruption striking at once empties the loop. -/
theorem tryBody_interrupt_zero (readLog : String → String) (dist_dir : String)
    (rs : List Result) :
    tryBody readLog dist_dir rs (some 0) = ([], Outcome.interrupted) := by
  cases rs <;> simp [tryBody]

/-- With only successful results and no interruption, the loop prints one
status line per result and completes. -/
theorem tryBody_all_success (readLog : String → String) (dist_dir : String)
    (rs : List Result) (h : ∀ r ∈ rs, r.success = true) :
    tryBody readLog dist_dir rs none =
      (rs.map (fun r => Ev.success r.name), Outcome.completed) := by
  induction rs with
  | nil => simp [tryBody]
  | cons r rest ih =>
    have hr : r.success = true := h r (by simp)
    have hrest := ih (fun x hx => h x (by simp [hx]))
    simp [tryBody, hr, hrest]

/-- The first failed result stops the loop: the successes before it are
reported, the failure events follow, and nothing after it is consumed. -/
theorem tryBody_first_fail (readLog : String → String) (dist_dir : String)
    (pre : List Result) (f : Result) (post : List Result)
    (hpre : ∀ r ∈ pre, r.success = true) (hf : f.success = false) :
    tryBody readLog dist_dir (pre ++ f :: post) none =
      (pre.map (fun r => Ev.success r.name) ++ failEvs readLog dist_dir f,
       Outcome.buildFailed) := by
  induction pre with
  | nil => simp [tryBody, hf, failEvs]
  | cons r rest ih =>
    have hr : r.success = true := hpre r (by simp)
    have hrest := ih (fun x hx => hpre x (by simp [hx]))
    simp [tryBody, hr, hrest]

/-- Without an interruption the loop never reports the interrupted
outcome. -/
theorem tryBody_none_ne_interrupted (readLog : String → String)
    (dist_dir : String) (rs : List Result) :
    (tryBody readLog dist_dir rs none).2 ≠ Outcome.interrupted := by
  induction rs with
  | nil => simp [tryBody]
  | cons r rest ih =>
    by_cases hr : r.success <;> simp [tryBody, hr]
    exact ih

/-- C1: when `get_result()` yields a failed result, the driver terminates
the queue, joins it, surfaces the failure (prints the status line and the
captured log, appends it to the error record) and stops the phase at
once: the trace and outcome are independent of every result still
outstanding. -/
theorem fail_fast_abort (readLog : String → String) (dist_dir : String)
    (pre : List Result) (f : Result) (post post2 : List Result)
    (hpre : ∀ r ∈ pre, r.success = true) (hf : f.success = false) :
    buildPhase readLog dist_dir (pre ++ f :: post) none =
      (pre.map (fun r => Ev.success r.name) ++
        (failEvs readLog dist_dir f ++ [Ev.terminate, Ev.join]),
       Outcome.buildFailed) ∧
    buildPhase readLog dist_dir (pre ++ f :: post) none =
      buildPhase readLog dist_dir (pre ++ f :: post2) none := by
  have h1 := tryBody_first_fail readLog dist_dir pre f post hpre hf
  have h2 := tryBody_first_fail readLog dist_dir pre f post2 hpre hf
  constructor
  · simp [buildPhase, h1, List.append_assoc]
  · simp [buildPhase, h1, h2]

/-- Witness for C1: a failing first result gives the same phase trace no
matter how many results were still pending. -/
theorem fail_fast_abort_witness :
    buildPhase (fun _ => "trace") "dist"
        ([] ++ (⟨"clang", false, "lp"⟩ : Result) :: [⟨"gcc", true, "g"⟩]) none =
      buildPhase (fun _ => "trace") "dist"
        ([] ++ (⟨"clang", false, "lp"⟩ : Result) :: []) none :=
  (fail_fast_abort (fun _ => "trace") "dist" [] ⟨"clang", false, "lp"⟩
    [⟨"gcc", true, "g"⟩] [] (by simp) rfl).2

/-- C4: every collected result prints its own status line —
`BUILD SUCCESSFUL` lines one by one as successes arrive, and on the first
failure a `BUILD FAILED` line followed by the full captured log, which is
also appended to `logs/build_error.log` under the dist directory, after
which the process exits with code 1. -/
theorem result_reporting (readLog : String → String) (dist_dir : String) :
    (∀ rs : List Result, (∀ r ∈ rs, r.success = true) →
       buildPhase readLog dist_dir rs none =
         (rs.map (fun r => Ev.success r.name) ++ [Ev.terminate, Ev.join],
          Outcome.completed)) ∧
    (∀ (pre : List Result) (f : Result) (post : List Result),
       (∀ r ∈ pre, r.success = true) → f.success = false →
       (buildPhase readLog dist_dir (pre ++ f :: post) none).1 =
         pre.map (fun r => Ev.success r.name) ++
           [Ev.terminate, Ev.join, Ev.failed f.name,
            Ev.printLog (readLog f.log_path),
            Ev.appendErrorLog (os_path_join dist_dir "logs/build_error.log")
              ("\n" ++ readLog f.log_path),
            Ev.terminate, Ev.join] ∧
       ∀ dp pk tr tk, mainExitCode readLog dist_dir (pre ++ f :: post) dp pk tr tk = 1) := by
  constructor
  · intro rs h
    simp [buildPhase, tryBody_all_success readLog dist_dir rs h]
  · intro pre f post hpre hf
    have h1 := tryBody_first_fail readLog dist_dir pre f post hpre hf
    constructor
    · simp [buildPhase, h1, failEvs, List.append_assoc]
    · intro dp pk tr tk
      simp [mainExitCode, buildPhase, h1]

/-- Witness for C4: two successful results are reported individually and
the phase completes. -/
theorem result_reporting_witness :
    buildPhase (fun _ => "") "dist"
        [⟨"clang", true, "c"⟩, ⟨"gcc", true, "g"⟩] none =
      ([Ev.success "clang", Ev.success "gcc", Ev.terminate, Ev.join],
       Outcome.completed) :=
  (result_reporting (fun _ => "") "dist").1
    [⟨"clang", true, "c"⟩, ⟨"gcc", true, "g"⟩] (by decide)

/-- The loop body emits the terminate/join pair exactly when it hits a
failed result. -/
theorem tryBody_count_pair (readLog : String → String) (dist_dir : String)
    (rs : List Result) (i : Option Nat) :
    ((tryBody readLog dist_dir rs i).1.count Ev.terminate =
       if (tryBody readLog dist_dir rs i).2 = Outcome.buildFailed then 1 else 0) ∧
    ((tryBody readLog dist_dir rs i).1.count Ev.join =
       if (tryBody readLog dist_dir rs i).2 = Outcome.buildFailed then 1 else 0) := by
  induction rs generalizing i with
  | nil =>
    rcases i with _ | k
    · simp [tryBody]
    · rcases k with _ | k <;> simp [tryBody]
  | cons r rest ih =>
    rcases i with _ | k
    · by_cases hr : r.success <;>
        simp [tryBody, hr, List.count_cons, List.count_append, ih none]
    · rcases k with _ | k
      · simp [tryBody]
      · by_cases hr : r.success <;>
          simp [tryBody, hr, List.count_cons, List.count_append, ih (some k)]

/-- C3 counterexample: with a single failed result, the build phase's
trace contains the terminate/join pair twice (the inline call plus the
`finally` suite), so the pair is not invoked exactly once on every path. -/
theorem terminate_join_once_cex :
    ¬ ((buildPhase (fun _ => "") "" [⟨"clang", false, "l"⟩] none).1.count
        Ev.terminate = 1) := by
  decide

/-- C3 amended: the terminate/join pair is invoked at least once on every
exit path of the build phase, always as its final two actions; it runs
exactly once on the success and interruption paths and twice on the
failure path, where the `finally` suite repeats the (idempotent) inline
pair. -/
theorem terminate_join_per_path (readLog : String → String) (dist_dir : String)
    (arriving : List Result) (interrupt : Option Nat) :
    ((buildPhase readLog dist_dir arriving interrupt).1.count Ev.terminate =
       if (buildPhase readLog dist_dir arriving interrupt).2 = Outcome.buildFailed
       then 2 else 1) ∧
    ((buildPhase readLog dist_dir arriving interrupt).1.count Ev.join =
       if (buildPhase readLog dist_dir arriving interrupt).2 = Outcome.buildFailed
       then 2 else 1) ∧
    ∃ evs, (buildPhase readLog dist_dir arriving interrupt).1 =
      evs ++ [Ev.terminate, Ev.join] := by
  obtain ⟨h1, h2⟩ := tryBody_count_pair readLog dist_dir arriving interrupt
  refine ⟨?_, ?_, ⟨(tryBody readLog dist_dir arriving interrupt).1, rfl⟩⟩ <;>
    by_cases hb : (tryBody readLog dist_dir arriving interrupt).2 = Outcome.buildFailed <;>
      simp [buildPhase, List.count_append, h1, h2, hb]

/-- C5: the build/package/test pipeline exits 0 exactly when every phase
that runs succeeds: a failed build module exits 1 via `sys.exit(1)`, a
packaging exception makes the interpreter exit 1, and otherwise the exit
status is `sys.exit(not good)` — the overall pass/fail boolean. -/
theorem exit_code_contract (readLog : String → String) (dist_dir : String)
    (arriving : List Result) (dp pk tr tk : Bool) :
    (mainExitCode readLog dist_dir arriving dp pk tr tk = 0 ∨
     mainExitCode readLog dist_dir arriving dp pk tr tk = 1) ∧
    ((tryBody readLog dist_dir arriving none).2 = Outcome.buildFailed →
       mainExitCode readLog dist_dir arriving dp pk tr tk = 1) ∧
    ((tryBody readLog dist_dir arriving none).2 = Outcome.completed →
       (dp = true → pk = true) →
       mainExitCode readLog dist_dir arriving dp pk tr tk =
         if (if tr then tk else true) then 0 else 1) ∧
    (mainExitCode readLog dist_dir arriving dp pk tr tk = 0 ↔
       ((tryBody readLog dist_dir arriving none).2 = Outcome.completed ∧
        (dp = true → pk = true) ∧ (tr = true → tk = true))) := by
  cases hb : (tryBody readLog dist_dir arriving none).2 with
  | completed =>
    cases dp <;> cases pk <;> cases tr <;> cases tk <;>
      simp [mainExitCode, buildPhase, hb]
  | buildFailed =>
    cases dp <;> cases pk <;> cases tr <;> cases tk <;>
      simp [mainExitCode, buildPhase, hb]
  | interrupted => exact absurd hb (tryBody_none_ne_interrupted readLog dist_dir arriving)

/-- Witness for C5: an all-success run with packaging and testing on
exits 0. -/
theorem exit_code_contract_witness :
    mainExitCode (fun _ => "") "dist" [⟨"clang", true, "l"⟩] true true true true = 0 :=
  (exit_code_contract (fun _ => "") "dist" [⟨"clang", true, "l"⟩]
      true true true true).2.2.2.mpr ⟨by decide, fun _ => rfl, fun _ => rfl⟩

/-- Every result the pool from state `s` will ever account for: results
already consumed, results queued, and the results of the jobs still
claimed or unclaimed. -/
def wqJobsOf {α : Type} (exec : α → Result) (s : WQState α) : List Result :=
  s.collected ++ s.resultQ ++ (s.inFlight ++ s.pending).map exec

/-- Every non-terminating transition preserves the multiset of accounted
results: jobs move between the intake queue, the workers, the result
queue and the consumer, but none is lost or duplicated. -/
theorem wqStep_perm {α : Type} [DecidableEq α] (exec : α → Result)
    (s : WQState α) (step : WQStep α) (hstep : step ≠ WQStep.terminate) :
    (wqJobsOf exec (wqStep exec s step)).Perm (wqJobsOf exec s) := by
  cases step with
  | claim =>
    by_cases ht : s.terminated
    · simp [wqStep, ht]
    · cases hp : s.pending with
      | nil => simp [wqStep, ht, hp]
      | cons j rest =>
        simp [wqStep, ht, hp, wqJobsOf, List.append_assoc]
  | finish j =>
    by_cases hj : j ∈ s.inFlight
    · simp only [wqStep, if_pos hj, wqJobsOf]
      have hperm : (s.inFlight ++ s.pending).Perm
          (j :: (s.inFlight.erase j ++ s.pending)) :=
        (List.perm_cons_erase hj).append_right s.pending
      have hmap := hperm.map exec
      simp only [List.map_cons] at hmap
      have lhs_eq :
          s.collected ++ (s.resultQ ++ [exec j]) ++
              ((s.inFlight.erase j ++ s.pending).map exec) =
            s.collected ++ s.resultQ ++
              (exec j :: (s.inFlight.erase j ++ s.pending).map exec) := by
        simp [List.append_assoc]
      rw [lhs_eq]
      exact (hmap.symm).append_left (s.collected ++ s.resultQ)
    · simp [wqStep, hj]
  | collect =>
    cases hq : s.resultQ with
    | nil => simp [wqStep, hq]
    | cons r rest => simp [wqStep, hq, wqJobsOf, List.append_assoc]
  | terminate => exact absurd rfl hstep

/-- Running any terminate-free schedule preserves the accounted
results. -/
theorem wqRun_perm {α : Type} [DecidableEq α] (exec : α → Result)
    (s : WQState α) (sched : List (WQStep α))
    (h : WQStep.terminate ∉ sched) :
    (wqJobsOf exec (wqRun exec s sched)).Perm (wqJobsOf exec s) := by
  induction sched generalizing s with
  | nil => exact List.Perm.refl _
  | cons st rest ih =>
    have hst : st ≠ WQStep.terminate := fun he => h (by simp [he])
    have hrest : WQStep.terminate ∉ rest := fun hm => h (by simp [hm])
    exact ((ih (wqStep exec s st) hrest).trans (wqStep_perm exec s st hst))

/-- The sequential claim/finish/collect schedule drives every job to
completion and collects its result in submission order. -/
theorem wqRun_seq {α : Type} [DecidableEq α] (exec : α → Result)
    (jobs : List α) (pre : List Result) :
    wqRun exec ⟨jobs, [], [], pre, false⟩ (seqSchedule jobs) =
      ⟨[], [], [], pre ++ jobs.map exec, false⟩ := by
  induction jobs generalizing pre with
  | nil => simp [seqSchedule, wqRun]
  | cons j rest ih =>
    rw [seqSchedule]
    show wqRun exec
        (wqStep exec (wqStep exec (wqStep exec ⟨j :: rest, [], [], pre, false⟩
          WQStep.claim) (WQStep.finish j)) WQStep.collect) (seqSchedule rest) = _
    have s1 : wqStep exec (⟨j :: rest, [], [], pre, false⟩ : WQState α)
        WQStep.claim = ⟨rest, [j], [], pre, false⟩ := by
      simp [wqStep]
    have s2 : wqStep exec (⟨rest, [j], [], pre, false⟩ : WQState α)
        (WQStep.finish j) = ⟨rest, [], [exec j], pre, false⟩ := by
      simp [wqStep]
    have s3 : wqStep exec (⟨rest, [], [exec j], pre, false⟩ : WQState α)
        WQStep.collect = ⟨rest, [], [], pre ++ [exec j], false⟩ := by
      simp [wqStep]
    rw [s1, s2, s3, ih (pre ++ [exec j])]
    simp [List.append_assoc]

/-- C6 (modelled from the spec, as the `WorkQueue` source is not in this
snapshot): for all N ≥ 0 submitted jobs none of which fails, some
execution reaches `finished() = true` having collected exactly the N
successful results via `get_result()`, and under every terminate-free
interleaving that reaches `finished()`, the collected results are exactly
one per submitted job — no result lost, none delivered twice. -/
theorem workqueue_no_loss {α : Type} [DecidableEq α] (exec : α → Result)
    (jobs : List α) (hok : ∀ j ∈ jobs, (exec j).success = true) :
    (wqFinished (wqRun exec (wqInit jobs) (seqSchedule jobs)) = true ∧
     (wqRun exec (wqInit jobs) (seqSchedule jobs)).collected = jobs.map exec ∧
     (wqRun exec (wqInit jobs) (seqSchedule jobs)).collected.length = jobs.length ∧
     ∀ r ∈ (wqRun exec (wqInit jobs) (seqSchedule jobs)).collected,
       r.success = true) ∧
    ∀ sched : List (WQStep α), WQStep.terminate ∉ sched →
      wqFinished (wqRun exec (wqInit jobs) sched) = true →
      ((wqRun exec (wqInit jobs) sched).collected.Perm (jobs.map exec) ∧
       (wqRun exec (wqInit jobs) sched).collected.length = jobs.length) := by
  have hseq := wqRun_seq exec jobs []
  have hinit : wqInit jobs = (⟨jobs, [], [], [], false⟩ : WQState α) := rfl
  constructor
  · rw [hinit, hseq]
    refine ⟨rfl, by simp, by simp, ?_⟩
    intro r hr
    simp only [List.nil_append, List.mem_map] at hr
    obtain ⟨j, hj, rfl⟩ := hr
    exact hok j hj
  · intro sched hns hfin
    have hperm := wqRun_perm exec (wqInit jobs) sched hns
    set s := wqRun exec (wqInit jobs) sched with hs
    have hempt : s.pending = [] ∧ s.inFlight = [] ∧ s.resultQ = [] := by
      rw [wqFinished] at hfin
      simp only [Bool.and_eq_true, List.isEmpty_iff] at hfin
      exact ⟨hfin.1.1, hfin.1.2, hfin.2⟩
    have hjobs : wqJobsOf exec s = s.collected := by
      rw [wqJobsOf, hempt.1, hempt.2.1, hempt.2.2]
      simp
    have hjobs0 : wqJobsOf exec (wqInit jobs) = jobs.map exec := by
      rw [wqJobsOf, wqInit]
      simp
    rw [hjobs, hjobs0] at hperm
    exact ⟨hperm, by rw [hperm.length_eq, List.length_map]⟩

/-- Witness for C6: two successful jobs are both collected, in order,
under the sequential schedule. -/
theorem workqueue_no_loss_witness :
    (wqRun (fun n : Nat => (⟨toString n, true, ""⟩ : Result))
        (wqInit [7, 9]) (seqSchedule [7, 9])).collected =
      [7, 9].map (fun n : Nat => (⟨toString n, true, ""⟩ : Result)) :=
  (workqueue_no_loss (fun n : Nat => (⟨toString n, true, ""⟩ : Result))
    [7, 9] (by decide)).1.2.1

/-- Membership in Python's `range(lo, hi)`: the half-open interval. -/
theorem pyRange_mem (lo hi k : Int) : k ∈ pyRange lo hi ↔ lo ≤ k ∧ k < hi := by
  simp only [pyRange, List.mem_map, List.mem_range, Int.ofNat_eq_natCast]
  constructor
  · rintro ⟨i, h2, rfl⟩
    omega
  · intro h
    exact ⟨(k - lo).toNat, by omega, by omega⟩

/-- `range(lo, hi)` is strictly increasing. -/
theorem pyRange_sorted (lo hi : Int) : (pyRange lo hi).Pairwise (· < ·) :=
  List.Pairwise.map (fun i => lo + Int.ofNat i)
    (fun a b hab => by simp only [Int.ofNat_eq_natCast]; omega)
    (List.pairwise_lt_range _)

/-- The gap set contains exactly the levels of the half-open interval
that are not already present. -/
theorem missing_platforms_mem (apis : List Int) (lo hi k : Int) :
    k ∈ missing_platforms apis lo hi ↔ lo ≤ k ∧ k < hi ∧ k ∉ apis := by
  simp only [missing_platforms, List.mem_filter, pyRange_mem,
    Bool.not_eq_eq_eq_not, Bool.not_true]
  constructor
  · rintro ⟨⟨h1, h2⟩, h3⟩
    refine ⟨h1, h2, fun hmem => ?_⟩
    have hc : apis.contains k = true := List.elem_iff.mpr hmem
    simp [hc] at h3
    exact h3 hmem
  · rintro ⟨h1, h2, h3⟩
    refine ⟨⟨h1, h2⟩, ?_⟩
    cases hc : apis.contains k
    · rfl
    · exact absurd (List.elem_iff.mp hc) h3

/-- The gap set is listed in strictly increasing order. -/
theorem missing_platforms_sorted (apis : List Int) (lo hi : Int) :
    (missing_platforms apis lo hi).Pairwise (· < ·) :=
  (pyRange_sorted lo hi).sublist (List.filter_sublist _)

/-- The scanning loop appends exactly the `int()`-parseable names of the
directory entries, in listing order. -/
theorem scan_apis_go (entries : List DirEntry)
    (acc : List Int × Option Int × Option Int) :
    (entries.foldl scanStep acc).1 =
      acc.1 ++ (entries.filter (fun e => e.is_dir)).filterMap
        (fun e => pyInt? e.name) := by
  induction entries generalizing acc with
  | nil => simp
  | cons e rest ih =>
    rw [List.foldl_cons, ih]
    by_cases hd : e.is_dir
    · cases hp : pyInt? e.name with
      | none => simp [scanStep, hd, hp]
      | some api => simp [scanStep, hd, hp, List.append_assoc]
    · simp [scanStep, hd, Bool.eq_false_iff.mpr hd]

/-- `min_api` is a least present level (or the list is empty). -/
def isMinBound (mo : Option Int) (l : List Int) : Prop :=
  match mo with
  | none => l = []
  | some m => m ∈ l ∧ ∀ a ∈ l, m ≤ a

/-- `max_api` is a greatest present level (or the list is empty). -/
def isMaxBound (mo : Option Int) (l : List Int) : Prop :=
  match mo with
  | none => l = []
  | some m => m ∈ l ∧ ∀ a ∈ l, a ≤ m

/-- One scanning step preserves the `min_api` invariant. -/
theorem scanStep_min (acc : List Int × Option Int × Option Int) (e : DirEntry)
    (hmin : isMinBound acc.2.1 acc.1) :
    isMinBound (scanStep acc e).2.1 (scanStep acc e).1 := by
  by_cases hd : e.is_dir
  · cases hp : pyInt? e.name with
    | none => simpa [scanStep, hd, hp] using hmin
    | some api =>
      cases hm : acc.2.1 with
      | none =>
        have hl : acc.1 = [] := by simpa [isMinBound, hm] using hmin
        simp [scanStep, hd, hp, hm, isMinBound, hl]
      | some m =>
        obtain ⟨hmem, hb⟩ : m ∈ acc.1 ∧ ∀ a ∈ acc.1, m ≤ a := by
          simpa [isMinBound, hm] using hmin
        by_cases hlt : api < m
        · simp only [scanStep, hd, Bool.not_true, Bool.false_eq_true, if_false,
            hp, hm, if_pos hlt, isMinBound]
          refine ⟨by simp, ?_⟩
          intro a ha
          rcases List.mem_append.mp ha with h | h
          · exact le_of_lt (lt_of_lt_of_le hlt (hb a h))
          · simp at h
            omega
        · simp only [scanStep, hd, Bool.not_true, Bool.false_eq_true, if_false,
            hp, hm, if_neg hlt, isMinBound]
          refine ⟨List.mem_append.mpr (Or.inl hmem), ?_⟩
          intro a ha
          rcases List.mem_append.mp ha with h | h
          · exact hb a h
          · simp at h
            omega
  · simpa [scanStep, hd, Bool.eq_false_iff.mpr hd] using hmin

/-- One scanning step preserves the `max_api` invariant. -/
theorem scanStep_max (acc : List Int × Option Int × Option Int) (e : DirEntry)
    (hmax : isMaxBound acc.2.2 acc.1) :
    isMaxBound (scanStep acc e).2.2 (scanStep acc e).1 := by
  by_cases hd : e.is_dir
  · cases hp : pyInt? e.name with
    | none => simpa [scanStep, hd, hp] using hmax
    | some api =>
      cases hm : acc.2.2 with
      | none =>
        have hl : acc.1 = [] := by simpa [isMaxBound, hm] using hmax
        simp [scanStep, hd, hp, hm, isMaxBound, hl]
      | some m =>
        obtain ⟨hmem, hb⟩ : m ∈ acc.1 ∧ ∀ a ∈ acc.1, a ≤ m := by
          simpa [isMaxBound, hm] using hmax
        by_cases hgt : api > m
        · simp only [scanStep, hd, Bool.not_true, Bool.false_eq_true, if_false,
            hp, hm, if_pos hgt, isMaxBound]
          refine ⟨by simp, ?_⟩
          intro a ha
          rcases List.mem_append.mp ha with h | h
          · exact (lt_of_le_of_lt (hb a h) hgt).le
          · simp at h
            omega
        · simp only [scanStep, hd, Bool.not_true, Bool.false_eq_true, if_false,
            hp, hm, if_neg hgt, isMaxBound]
          refine ⟨List.mem_append.mpr (Or.inl hmem), ?_⟩
          intro a ha
          rcases List.mem_append.mp ha with h | h
          · exact hb a h
          · simp at h
            omega
  · simpa [scanStep, hd, Bool.eq_false_iff.mpr hd] using hmax

/-- The whole scan maintains both bound invariants. -/
theorem scan_min_max (entries : List DirEntry)
    (acc : List Int × Option Int × Option Int)
    (hmin : isMinBound acc.2.1 acc.1) (hmax : isMaxBound acc.2.2 acc.1) :
    isMinBound (entries.foldl scanStep acc).2.1 (entries.foldl scanStep acc).1 ∧
    isMaxBound (entries.foldl scanStep acc).2.2 (entries.foldl scanStep acc).1 := by
  induction entries generalizing acc with
  | nil => exact ⟨hmin, hmax⟩
  | cons e rest ih =>
    rw [List.foldl_cons]
    exact ih (scanStep acc e) (scanStep_min acc e hmin) (scanStep_max acc e hmax)

/-- If every gap build succeeds, the loop returns `(True, '')` after
building every level. -/
theorem buildLoop_all_ok (build : Int → Bool × String) (l : List Int)
    (h : ∀ k ∈ l, (build k).1 = true) : buildLoop build l = ((true, ""), l) := by
  induction l with
  | nil => rfl
  | cons a rest ih =>
    have ha := h a (by simp)
    have hrest := ih (fun k hk => h k (by simp [hk]))
    simp [buildLoop, ha, hrest]

/-- The loop reports `(True, '')` exactly when every listed build
succeeds. -/
theorem buildLoop_true_iff (build : Int → Bool × String) (l : List Int) :
    (buildLoop build l).1 = (true, "") ↔ ∀ k ∈ l, (build k).1 = true := by
  constructor
  · induction l with
    | nil =>
      intro _ k hk
      simp at hk
    | cons a rest ih =>
      intro h k hk
      by_cases ha : (build a).1 = true
      · simp only [buildLoop, ha, if_true] at h
        rcases List.mem_cons.mp hk with rfl | hmem
        · exact ha
        · exact ih h k hmem
      · simp only [buildLoop, ha, Bool.false_eq_true, if_false] at h
        exact absurd (congrArg Prod.fst h) ha
  · intro h
    rw [buildLoop_all_ok build l h]

/-- Only listed gap levels are ever built. -/
theorem buildLoop_built_in (build : Int → Bool × String) (l : List Int) :
    ∀ b ∈ (buildLoop build l).2, b ∈ l := by
  induction l with
  | nil => simp [buildLoop]
  | cons a rest ih =>
    intro b hb
    by_cases ha : (build a).1 = true
    · simp only [buildLoop, ha, if_true] at hb
      rcases List.mem_cons.mp hb with h | hmem
      · simp [h]
      · exact List.mem_cons_of_mem a (ih b hmem)
    · simp only [buildLoop, ha, Bool.false_eq_true, if_false] at hb
      simp at hb
      simp [hb]

/-- The first failing build stops the loop: its `(result, out)` is
returned and no later level is built. -/
theorem buildLoop_first_fail (build : Int → Bool × String)
    (gpre : List Int) (k : Int) (gpost : List Int)
    (hpre : ∀ x ∈ gpre, (build x).1 = true) (hk : (build k).1 = false) :
    buildLoop build (gpre ++ k :: gpost) = (build k, gpre ++ [k]) := by
  induction gpre with
  | nil => simp [buildLoop, hk]
  | cons a rest ih =>
    have ha := hpre a (by simp)
    have hrest := ih (fun x hx => hpre x (by simp [hx]))
    simp [buildLoop, ha, hrest]

/-- C10: `run_test` of the `no_platform_gaps` test computes the gap set
as exactly the integers of the half-open interval `[min_api, max_api)`
absent from the numeric directory names (so `max_api` itself is never
built), where `min_api`/`max_api` bound the parsed names; it builds the
gaps in increasing order, succeeds with `(True, '')` iff every gap build
succeeds, and returns the first failing build's `(False, out)` without
building any later level. -/
theorem no_platform_gaps_run_test (entries : List DirEntry)
    (build : Int → Bool × String) (apis : List Int) (lo hi : Int)
    (hscan : scanApis entries = (apis, some lo, some hi)) :
    (∀ k, k ∈ missing_platforms apis lo hi ↔ (lo ≤ k ∧ k < hi ∧ k ∉ apis)) ∧
    apis = (entries.filter (fun e => e.is_dir)).filterMap (fun e => pyInt? e.name) ∧
    (lo ∈ apis ∧ ∀ a ∈ apis, lo ≤ a) ∧
    (hi ∈ apis ∧ ∀ a ∈ apis, a ≤ hi) ∧
    (missing_platforms apis lo hi).Pairwise (· < ·) ∧
    run_test entries build = some (buildLoop build (missing_platforms apis lo hi)) ∧
    ((buildLoop build (missing_platforms apis lo hi)).1 = (true, "") ↔
       ∀ k ∈ missing_platforms apis lo hi, (build k).1 = true) ∧
    (∀ b ∈ (buildLoop build (missing_platforms apis lo hi)).2,
       b ∈ missing_platforms apis lo hi) ∧
    (∀ gpre k gpost, missing_platforms apis lo hi = gpre ++ k :: gpost →
       (∀ x ∈ gpre, (build x).1 = true) → (build k).1 = false →
       buildLoop build (missing_platforms apis lo hi) = (build k, gpre ++ [k])) := by
  have hapis : apis = (entries.filter (fun e => e.is_dir)).filterMap
      (fun e => pyInt? e.name) := by
    have := scan_apis_go entries ([], none, none)
    rw [show entries.foldl scanStep ([], none, none) = scanApis entries from rfl,
      hscan] at this
    simpa using this
  have hbounds := scan_min_max entries ([], none, none) (by simp [isMinBound])
    (by simp [isMaxBound])
  rw [show entries.foldl scanStep ([], none, none) = scanApis entries from rfl,
    hscan] at hbounds
  refine ⟨missing_platforms_mem apis lo hi, hapis, ?_, ?_,
    missing_platforms_sorted apis lo hi, ?_, buildLoop_true_iff build _,
    buildLoop_built_in build _, ?_⟩
  · simpa [isMinBound] using hbounds.1
  · simpa [isMaxBound] using hbounds.2
  · rw [run_test, hscan]
  · intro gpre k gpost hsplit hpre hk
    rw [hsplit]
    exact buildLoop_first_fail build gpre k gpost hpre hk

/-- Witness for C10: levels 19 and 21 present, gap `[20]`; a universally
successful build closes the gap and reports success. -/
theorem no_platform_gaps_run_test_witness :
    run_test [⟨"19", true⟩, ⟨"21", true⟩] (fun _ => (true, "output")) =
      some (buildLoop (fun _ => (true, "output"))
        (missing_platforms [19, 21] 19 21)) :=
  (no_platform_gaps_run_test [⟨"19", true⟩, ⟨"21", true⟩]
    (fun _ => (true, "output")) [19, 21] 19 21 (by decide)).2.2.2.2.2.1
